import Mathlib

/-!
Verification of the ScanADC background ADC-scanning engine
(src/ScanADC.h, src/ScanADC.cpp).

The engine state (the `ScanADC` singleton's member variables together with the
three ADC hardware registers it programs) is embedded as the structure
`ScanADC.Engine`.  The interrupt service routine `ISR(ADC_vect)`
(ScanADC.cpp lines 49-124) is embedded as the step function `ScanADC.isrStep`,
one invocation per hardware conversion-complete event.  Machine integers are
modelled as `Nat` with explicit reductions modulo 2^8, 2^16 and 2^32 where the
C code's fixed-width arithmetic can wrap.

Besides the successor state, one step also reports
  * `events`      - the user callbacks invoked, in program order,
  * `writes`      - the stores into the shared result arrays, in program order,
  * `configReads` - the channel-table indices read during the invocation,
  * `final`       - the channel finalized by this invocation, with the
                    published value, if any.
These observations are read directly off the ISR body and let us state the
ordering, callback and out-of-bounds-read properties.
-/

namespace ScanADC

/-- One channel descriptor (`struct channel_config_t`, ScanADC.h lines 160-164):
the hardware MUX selector and the log2 of the number of raw conversions to
average.  In C the latter is a 4-bit bitfield (`uint8_t sample_count_log2:4`),
so the stored value is always in 0..15; the reduction modulo 16 is applied
where a descriptor enters the engine-owned table (see `begin`). -/
structure ChannelConfig where
  mux : Nat
  sample_count_log2 : Nat
  deriving DecidableEq

/-- ISR state-machine states (`enum isr_state_t`, ScanADC.h lines 387-392). -/
inductive IsrState where
  | INIT
  | DELAY
  | ACCUMULATE
  deriving DecidableEq

/-- A user-callback invocation performed by one ISR invocation.  A callback
pointer is modelled as an opaque identifier (`Option Nat`; `none` = NULL). -/
inductive Event where
  | channelCb (id chan sampleVal : Nat)
  | scanCb (id : Nat) (samples : List Nat)
  deriving DecidableEq

/-- A store into the shared result arrays (`sample[chan_i] = ...` and
`sn[chan_i]++`, ScanADC.cpp lines 97-98), recorded in program order. -/
inductive MemWrite where
  | sampleW (i v : Nat)
  | snW (i v : Nat)
  deriving DecidableEq

/-- The engine state: the `ScanADC` member variables (ScanADC.h lines 394-408)
plus the ADC hardware registers the code programs.  The dynamically allocated
arrays `config`, `sn` and `sample` are modelled as lists sized by `begin`. -/
structure Engine where
  chan_count : Nat                 -- uint8_t chan_count
  channel_cb : Option Nat          -- channel_callback_t channel_cb (none = NULL)
  channel_scan_cb : Option Nat     -- channel_scan_callback_t channel_scan_cb
  state : IsrState                 -- isr_state_t state
  chan_i : Nat                     -- uint8_t chan_i
  sample_cnt : Nat                 -- uint16_t sample_cnt
  sample_cnt_target : Nat          -- uint16_t sample_cnt_target
  sample_accumulator : Nat         -- uint32_t sample_accumulator
  config : List ChannelConfig      -- channel_config_t *config
  sn : List Nat                    -- volatile uint8_t *sn
  sample : List Nat                -- volatile uint16_t *sample
  admux : Nat                      -- ADMUX register (uint8)
  adcsrb : Nat                     -- ADCSRB register (uint8)
  adcsra : Nat                     -- ADCSRA register (uint8)
  deriving DecidableEq

/-- Result of one ISR invocation: successor state plus the observations
described in the file header. -/
structure StepOut where
  st : Engine
  events : List Event
  writes : List MemWrite
  configReads : List Nat
  final : Option (Nat × Nat)
  deriving DecidableEq

/-- `ISR(ADC_vect)` (ScanADC.cpp lines 49-124), one invocation per hardware
conversion-complete event.  `adcData` is the 16-bit ADC data register content
`(ADCH << 8) | ADCL`; it is consumed only in the ACCUMULATE state.

* `ISR_STATE_INIT` (lines 55-69): program ADCSRB's MUX5 bit and ADMUX's low
  5 bits from `config[chan_i].mux` (lines 57-60; the descriptor reads are
  recorded in `configReads`), zero the accumulator and sample counter, set
  `sample_cnt_target = 1 << config[chan_i].sample_count_log2` in uint16
  arithmetic (lines 62-65), go to DELAY.
* `ISR_STATE_DELAY` (lines 71-75): discard the conversion, go to ACCUMULATE.
* `ISR_STATE_ACCUMULATE` (lines 77-121): add the reading to the uint32
  accumulator (lines 79-85); on `++sample_cnt == sample_cnt_target` finalize:
  round-to-nearest average when `sample_count_log2 != 0` (lines 91-95), store
  into `sample[chan_i]` then increment `sn[chan_i]` (lines 97-98, uint8 wrap),
  fire the channel callback (lines 100-103), advance `chan_i` (uint8
  increment) and on wrap fire the scan callback with the sample array
  (lines 105-113), return to INIT (line 115); otherwise just write the
  accumulator back (line 119). -/
def isrStep (e : Engine) (adcData : Nat) : StepOut :=
  match e.state with
  | .INIT =>
      let mux := (e.config.getD e.chan_i ⟨0, 0⟩).mux
      let adcsrb' := (e.adcsrb &&& 223) ||| (if mux &&& 32 = 0 then 0 else 32)
      let admux' := (e.admux &&& 224) ||| (mux &&& 31)
      let target := (1 <<< (e.config.getD e.chan_i ⟨0, 0⟩).sample_count_log2) % 65536
      { st := { e with
                  adcsrb := adcsrb'
                  admux := admux'
                  sample_accumulator := 0
                  sample_cnt := 0
                  sample_cnt_target := target
                  state := .DELAY }
        events := []
        writes := []
        configReads := [e.chan_i]
        final := none }
  | .DELAY =>
      { st := { e with state := .ACCUMULATE }
        events := []
        writes := []
        configReads := []
        final := none }
  | .ACCUMULATE =>
      let raw := adcData % 65536
      let accumulator := (e.sample_accumulator + raw) % 4294967296
      let cnt := (e.sample_cnt + 1) % 65536
      if cnt = e.sample_cnt_target then
        let samples_log2 := (e.config.getD e.chan_i ⟨0, 0⟩).sample_count_log2
        let acc2 :=
          if samples_log2 ≠ 0 then
            ((accumulator + (e.sample_cnt_target >>> 1)) % 4294967296) >>> samples_log2
          else
            accumulator
        let v := acc2 % 65536
        let sample' := e.sample.set e.chan_i v
        let snv := (e.sn.getD e.chan_i 0 + 1) % 256
        let sn' := e.sn.set e.chan_i snv
        let evA := match e.channel_cb with
          | some f => [Event.channelCb f e.chan_i v]
          | none => []
        let ci := (e.chan_i + 1) % 256
        if ci = e.chan_count then
          let evB := match e.channel_scan_cb with
            | some f => [Event.scanCb f sample']
            | none => []
          { st := { e with
                      sample_cnt := cnt
                      sample := sample'
                      sn := sn'
                      chan_i := 0
                      state := .INIT }
            events := evA ++ evB
            writes := [.sampleW e.chan_i v, .snW e.chan_i snv]
            configReads := [e.chan_i]
            final := some (e.chan_i, v) }
        else
          { st := { e with
                      sample_cnt := cnt
                      sample := sample'
                      sn := sn'
                      chan_i := ci
                      state := .INIT }
            events := evA
            writes := [.sampleW e.chan_i v, .snW e.chan_i snv]
            configReads := [e.chan_i]
            final := some (e.chan_i, v) }
      else
        { st := { e with
                    sample_accumulator := accumulator
                    sample_cnt := cnt }
          events := []
          writes := []
          configReads := []
          final := none }

/-- Run the ISR over a list of conversion-complete events (one ADC data value
per event); returns the final engine state and the list of
(channel, published value) finalizations in order of occurrence. -/
def run (e : Engine) : List Nat → Engine × List (Nat × Nat)
  | [] => (e, [])
  | r :: rs =>
      let out := isrStep e r
      let rest := run out.st rs
      (rest.1, out.final.toList ++ rest.2)

/-- `ScanADC::end` (ScanADC.cpp lines 167-176): `ADCSRA = 0`, then free the
allocation and null the `config` pointer (modelled by emptying the list). -/
def scanEnd (e : Engine) : Engine :=
  { e with adcsra := 0, config := [] }

/-- `ScanADC::begin` (ScanADC.cpp lines 126-165).  The caller's descriptor
array and its uint8 `channel_count` are modelled as the list
`channel_config` (count = list length).  Effects, in program order: `end()`;
`ADCSRB = 0`; allocate and zero the engine-owned `config`/`sn`/`sample`
arrays (malloc + memset, lines 132-144); copy the caller descriptors
(line 146; the 4-bit `sample_count_log2` bitfield holds its value modulo 16);
set `chan_count`, `state = ISR_STATE_INIT`, `chan_i = 0` (lines 148-151);
`ADMUX = (1 << REFS0) | config[0].mux` (lines 153-155, REFS0 = bit 6 — note
this reads descriptor 0 of the engine-owned table unconditionally);
`ADCSRA = (1<<ADPS2)|(1<<ADEN)|(1<<ADATE)|(1<<ADIE)` = 172, then
`ADCSRA |= (1<<ADSC)` = 236 (lines 157-162).  The second component of the
result records the engine-table descriptor indices read by `begin` itself
(the line-155 read of `config[0]`). -/
def begin (e : Engine) (channel_config : List ChannelConfig) : Engine × List Nat :=
  let e0 := scanEnd e
  let e1 := { e0 with adcsrb := 0 }
  let count := channel_config.length
  let config :=
    channel_config.map (fun c => { c with sample_count_log2 := c.sample_count_log2 % 16 })
  let e2 := { e1 with
                config := config
                sn := List.replicate count 0
                sample := List.replicate count 0
                chan_count := count
                state := .INIT
                chan_i := 0 }
  let e3 := { e2 with admux := 64 ||| (config.getD 0 ⟨0, 0⟩).mux }
  let e4 := { e3 with adcsra := 172 }
  let e5 := { e4 with adcsra := e4.adcsra ||| 64 }
  (e5, [0])

/-- The private constructor (ScanADC.h lines 356-358): sets both callback
pointers to NULL and leaves every other member uninitialized (here: as found
in the arbitrary pre-state `e`). -/
def construct (e : Engine) : Engine :=
  { e with channel_cb := none, channel_scan_cb := none }

/-- `ScanADC::attach_channel_callback` (ScanADC.cpp lines 178-185): save
ADCSRA, clear its ADIE bit (bit 3; `& ~(1<<ADIE)` = `& 247`), install the
pointer, restore the saved ADCSRA verbatim. -/
def attach_channel_callback (e : Engine) (cb : Option Nat) : Engine :=
  let old_ADCSRA := e.adcsra
  let e1 := { e with adcsra := e.adcsra &&& 247 }
  let e2 := { e1 with channel_cb := cb }
  { e2 with adcsra := old_ADCSRA }

/-- `ScanADC::attach_scan_callback` (ScanADC.cpp lines 187-194): same pattern
for the scan-level callback pointer. -/
def attach_scan_callback (e : Engine) (cb : Option Nat) : Engine :=
  let old_ADCSRA := e.adcsra
  let e1 := { e with adcsra := e.adcsra &&& 247 }
  let e2 := { e1 with channel_scan_cb := cb }
  { e2 with adcsra := old_ADCSRA }

/-- `ScanADC::get_sample` (ScanADC.cpp lines 214-224): save ADCSRA, clear the
ADIE bit, read `sample[channel]`, restore the saved ADCSRA verbatim, return
the reading. -/
def get_sample (e : Engine) (channel : Nat) : Nat × Engine :=
  let old_ADCSRA := e.adcsra
  let e1 := { e with adcsra := e.adcsra &&& 247 }
  let s := e1.sample.getD channel 0
  let e2 := { e1 with adcsra := old_ADCSRA }
  (s, e2)

/-- Replay a list of recorded result-store writes onto a sample array:
`sampleW` stores, `snW` does not touch the sample array. -/
def applySampleWrites (mem : List Nat) : List MemWrite → List Nat
  | [] => mem
  | .sampleW i v :: ws => applySampleWrites (mem.set i v) ws
  | .snW _ _ :: ws => applySampleWrites mem ws

/-- The value the ISR publishes when a channel whose averaging window started
with accumulator `acc`, target `t` and depth `L` finalizes after consuming
the raw readings `raws` (read off ScanADC.cpp lines 79-97): the readings are
truncated to 16 bits and summed into the 32-bit accumulator; when `L ≠ 0` the
bias `t >> 1` is added and the sum shifted right by `L`; the store into the
16-bit sample slot truncates modulo 2^16. -/
def publishVal (L t acc : Nat) (raws : List Nat) : Nat :=
  let A := (acc + (raws.map (fun r => r % 65536)).sum) % 4294967296
  (if L ≠ 0 then ((A + (t >>> 1)) % 4294967296) >>> L else A) % 65536

/-- Number of conversion-complete events one full scan of the configured
channel list consumes: per channel, one INIT (select) event, one DELAY
(settle) event and `2 ^ sample_count_log2` ACCUMULATE events (the 4-bit
bitfield reduces the depth modulo 16). -/
def scanEvents (cfg : List ChannelConfig) : Nat :=
  (cfg.map (fun c => 2 + 2 ^ (c.sample_count_log2 % 16))).sum

/-- A concrete engine state standing for the singleton's storage before any
session (all fields zero / empty / NULL). -/
def engine0 : Engine :=
  { chan_count := 0
    channel_cb := none
    channel_scan_cb := none
    state := .INIT
    chan_i := 0
    sample_cnt := 0
    sample_cnt_target := 0
    sample_accumulator := 0
    config := []
    sn := []
    sample := []
    admux := 0
    adcsrb := 0
    adcsra := 0 }

/-- A concrete engine state one event before the finalization of the last
(and only) configured channel, with a scan callback (id 3) installed. -/
def engineLast : Engine :=
  { engine0 with
      chan_count := 1
      channel_scan_cb := some 3
      state := .ACCUMULATE
      sample_cnt := 0
      sample_cnt_target := 1
      config := [⟨0, 0⟩]
      sn := [0]
      sample := [7] }

/-! ### List helpers -/

lemma getD_set_self : ∀ (l : List Nat) (i v d : Nat), i < l.length →
    (l.set i v).getD i d = v := by
  intro l
  induction l with
  | nil => intro i v d h; simp at h
  | cons x xs ih =>
      intro i v d h
      cases i with
      | zero => rfl
      | succ j =>
          simp only [List.set_cons_succ, List.getD_cons_succ]
          exact ih j v d (by simpa using h)

lemma getD_set_ne : ∀ (l : List Nat) (i j v d : Nat), i ≠ j →
    (l.set i v).getD j d = l.getD j d := by
  intro l
  induction l with
  | nil => intro i j v d _; rfl
  | cons x xs ih =>
      intro i j v d hij
      cases i with
      | zero =>
          cases j with
          | zero => exact absurd rfl hij
          | succ k => rfl
      | succ i' =>
          cases j with
          | zero => rfl
          | succ k =>
              simp only [List.set_cons_succ, List.getD_cons_succ]
              exact ih i' k v d (by omega)

lemma sum_le_length_mul : ∀ (l : List Nat) (b : Nat), (∀ x ∈ l, x ≤ b) →
    l.sum ≤ l.length * b := by
  intro l
  induction l with
  | nil => intro b _; simp
  | cons x xs ih =>
      intro b h
      have hx : x ≤ b := h x (by simp)
      have hxs : xs.sum ≤ xs.length * b := ih b (fun y hy => h y (by simp [hy]))
      simp only [List.sum_cons, List.length_cons]
      calc x + xs.sum ≤ b + xs.length * b := Nat.add_le_add hx hxs
        _ = (xs.length + 1) * b := by ring

/-! ### Basic equations for `run` -/

lemma run_nil (e : Engine) : run e [] = (e, []) := rfl

lemma run_cons (e : Engine) (r : Nat) (rs : List Nat) :
    run e (r :: rs) =
      ((run (isrStep e r).st rs).1,
       (isrStep e r).final.toList ++ (run (isrStep e r).st rs).2) := rfl

lemma run_append (a b : List Nat) : ∀ (e : Engine),
    run e (a ++ b) =
      ((run (run e a).1 b).1, (run e a).2 ++ (run (run e a).1 b).2) := by
  induction a with
  | nil => intro e; simp [run_nil]
  | cons r rs ih =>
      intro e
      simp only [List.cons_append, run_cons, ih, List.append_assoc]

/-! ### One-invocation characterizations of the ISR state machine -/

lemma isrStep_INIT (e : Engine) (raw : Nat) (hs : e.state = .INIT) :
    isrStep e raw =
      { st := { e with
                  adcsrb := (e.adcsrb &&& 223) |||
                    (if (e.config.getD e.chan_i ⟨0, 0⟩).mux &&& 32 = 0 then 0 else 32)
                  admux := (e.admux &&& 224) ||| ((e.config.getD e.chan_i ⟨0, 0⟩).mux &&& 31)
                  sample_accumulator := 0
                  sample_cnt := 0
                  sample_cnt_target :=
                    (1 <<< (e.config.getD e.chan_i ⟨0, 0⟩).sample_count_log2) % 65536
                  state := .DELAY }
        events := []
        writes := []
        configReads := [e.chan_i]
        final := none } := by
  obtain ⟨cc, cb, scb, st, ci, cnt, tgt, acc, cfg, sq, smp, am, ab, aa⟩ := e
  cases hs
  rfl

lemma isrStep_DELAY (e : Engine) (raw : Nat) (hs : e.state = .DELAY) :
    isrStep e raw =
      { st := { e with state := .ACCUMULATE }
        events := []
        writes := []
        configReads := []
        final := none } := by
  obtain ⟨cc, cb, scb, st, ci, cnt, tgt, acc, cfg, sq, smp, am, ab, aa⟩ := e
  cases hs
  rfl

lemma isrStep_acc_cont (e : Engine) (raw : Nat) (hs : e.state = .ACCUMULATE)
    (hne : (e.sample_cnt + 1) % 65536 ≠ e.sample_cnt_target) :
    isrStep e raw =
      { st := { e with
                  sample_accumulator := (e.sample_accumulator + raw % 65536) % 4294967296
                  sample_cnt := (e.sample_cnt + 1) % 65536 }
        events := []
        writes := []
        configReads := []
        final := none } := by
  obtain ⟨cc, cb, scb, st, ci, cnt, tgt, acc, cfg, sq, smp, am, ab, aa⟩ := e
  cases hs
  simp only [isrStep]
  rw [if_neg hne]

lemma isrStep_acc_fin (e : Engine) (raw : Nat) (hs : e.state = .ACCUMULATE)
    (heq : (e.sample_cnt + 1) % 65536 = e.sample_cnt_target) :
    isrStep e raw =
      { st := { e with
                  sample_cnt := (e.sample_cnt + 1) % 65536
                  sample := e.sample.set e.chan_i (publishVal
                    (e.config.getD e.chan_i ⟨0, 0⟩).sample_count_log2
                    e.sample_cnt_target e.sample_accumulator [raw])
                  sn := e.sn.set e.chan_i ((e.sn.getD e.chan_i 0 + 1) % 256)
                  chan_i := if (e.chan_i + 1) % 256 = e.chan_count then 0
                            else (e.chan_i + 1) % 256
                  state := .INIT }
        events :=
          (match e.channel_cb with
            | some f => [Event.channelCb f e.chan_i (publishVal
                (e.config.getD e.chan_i ⟨0, 0⟩).sample_count_log2
                e.sample_cnt_target e.sample_accumulator [raw])]
            | none => []) ++
          (if (e.chan_i + 1) % 256 = e.chan_count then
            (match e.channel_scan_cb with
              | some f => [Event.scanCb f (e.sample.set e.chan_i (publishVal
                  (e.config.getD e.chan_i ⟨0, 0⟩).sample_count_log2
                  e.sample_cnt_target e.sample_accumulator [raw]))]
              | none => [])
          else [])
        writes := [.sampleW e.chan_i (publishVal
            (e.config.getD e.chan_i ⟨0, 0⟩).sample_count_log2
            e.sample_cnt_target e.sample_accumulator [raw]),
          .snW e.chan_i ((e.sn.getD e.chan_i 0 + 1) % 256)]
        configReads := [e.chan_i]
        final := some (e.chan_i, publishVal
            (e.config.getD e.chan_i ⟨0, 0⟩).sample_count_log2
            e.sample_cnt_target e.sample_accumulator [raw]) } := by
  obtain ⟨cc, cb, scb, st, ci, cnt, tgt, acc, cfg, sq, smp, am, ab, aa⟩ := e
  cases hs
  simp only [isrStep, publishVal]
  rw [if_pos heq]
  by_cases hw : (ci + 1) % 256 = cc
  · simp only [List.map_cons, List.map_nil, List.sum_cons, List.sum_nil, Nat.add_zero, heq]
    simp [hw]
  · simp only [List.map_cons, List.map_nil, List.sum_cons, List.sum_nil, Nat.add_zero, heq]
    simp [hw]

/-! ### Running a whole accumulation window -/

lemma publishVal_cons (L t acc r : Nat) (rs : List Nat) :
    publishVal L t ((acc + r % 65536) % 4294967296) rs = publishVal L t acc (r :: rs) := by
  unfold publishVal
  simp only [List.map_cons, List.sum_cons]
  have h : ((acc + r % 65536) % 4294967296 + (List.map (fun x => x % 65536) rs).sum)
        % 4294967296 =
      (acc + (r % 65536 + (List.map (fun x => x % 65536) rs).sum)) % 4294967296 := by
    rw [Nat.mod_add_mod, Nat.add_assoc]
  simp only [h]

/-- Feeding fewer ACCUMULATE events than remain in the window finalizes
nothing: the ISR only adds to the accumulator and counter. -/
lemma run_acc_short : ∀ (raws : List Nat) (e : Engine),
    e.state = .ACCUMULATE →
    e.sample_cnt_target ≤ 32768 →
    e.sample_cnt + raws.length < e.sample_cnt_target →
    e.sample_accumulator < 4294967296 →
    run e raws =
      ({ e with
           sample_accumulator :=
             (e.sample_accumulator + (raws.map (fun r => r % 65536)).sum) % 4294967296
           sample_cnt := e.sample_cnt + raws.length }, []) := by
  intro raws
  induction raws with
  | nil =>
      intro e hs ht hlt hacc
      simp only [run_nil, List.map_nil, List.sum_nil, Nat.add_zero, List.length_nil]
      rw [Nat.mod_eq_of_lt hacc]
  | cons r rs ih =>
      intro e hs ht hlt hacc
      have hcnt : e.sample_cnt + 1 < 65536 := by
        simp only [List.length_cons] at hlt; omega
      have hne : (e.sample_cnt + 1) % 65536 ≠ e.sample_cnt_target := by
        rw [Nat.mod_eq_of_lt hcnt]
        simp only [List.length_cons] at hlt; omega
      rw [run_cons, isrStep_acc_cont e r hs hne]
      rw [Nat.mod_eq_of_lt hcnt]
      rw [ih { e with
                 sample_accumulator := (e.sample_accumulator + r % 65536) % 4294967296
                 sample_cnt := e.sample_cnt + 1 }
            hs ht
            (show e.sample_cnt + 1 + rs.length < e.sample_cnt_target by
              simp only [List.length_cons] at hlt; omega)
            (Nat.mod_lt _ (by norm_num))]
      dsimp only
      simp only [Option.toList, List.nil_append, List.map_cons, List.sum_cons,
        List.length_cons]
      have hX : ((e.sample_accumulator + r % 65536) % 4294967296 +
          (List.map (fun x => x % 65536) rs).sum) % 4294967296 =
          (e.sample_accumulator +
            (r % 65536 + (List.map (fun x => x % 65536) rs).sum)) % 4294967296 := by
        rw [Nat.mod_add_mod, Nat.add_assoc]
      have hY : e.sample_cnt + 1 + rs.length = e.sample_cnt + (rs.length + 1) := by omega
      simp only [hX, hY]

/-- Feeding exactly the remaining ACCUMULATE events finalizes the current
channel once, publishing `publishVal`, and returns the machine to INIT at the
advanced channel index. -/
lemma run_acc_fin : ∀ (raws : List Nat) (e : Engine),
    e.state = .ACCUMULATE →
    e.sample_cnt_target ≤ 32768 →
    e.sample_cnt + raws.length = e.sample_cnt_target →
    raws ≠ [] →
    e.sample_accumulator < 4294967296 →
    (run e raws).2 = [(e.chan_i,
        publishVal (e.config.getD e.chan_i ⟨0, 0⟩).sample_count_log2
          e.sample_cnt_target e.sample_accumulator raws)] ∧
    (run e raws).1.state = .INIT ∧
    (run e raws).1.chan_i =
      (if (e.chan_i + 1) % 256 = e.chan_count then 0 else (e.chan_i + 1) % 256) ∧
    (run e raws).1.chan_count = e.chan_count ∧
    (run e raws).1.config = e.config := by
  intro raws
  induction raws with
  | nil => intro e _ _ _ hne _; exact absurd rfl hne
  | cons r rs ih =>
      intro e hs ht hlen _ hacc
      cases rs with
      | nil =>
          have hcnt : e.sample_cnt + 1 ≤ 32768 := by
            simp only [List.length_cons, List.length_nil] at hlen; omega
          have heq : (e.sample_cnt + 1) % 65536 = e.sample_cnt_target := by
            rw [Nat.mod_eq_of_lt (by omega)]
            simp only [List.length_cons, List.length_nil] at hlen; omega
          rw [run_cons, isrStep_acc_fin e r hs heq]
          simp [run_nil]
      | cons r2 rs' =>
          have hcnt : e.sample_cnt + 1 < 65536 := by
            simp only [List.length_cons] at hlen; omega
          have hne : (e.sample_cnt + 1) % 65536 ≠ e.sample_cnt_target := by
            rw [Nat.mod_eq_of_lt hcnt]
            simp only [List.length_cons] at hlen; omega
          rw [run_cons, isrStep_acc_cont e r hs hne]
          rw [Nat.mod_eq_of_lt hcnt]
          have hrec := ih { e with
                 sample_accumulator := (e.sample_accumulator + r % 65536) % 4294967296
                 sample_cnt := e.sample_cnt + 1 }
            hs ht
            (show e.sample_cnt + 1 + (r2 :: rs').length = e.sample_cnt_target by
              simp only [List.length_cons] at hlen ⊢; omega)
            (by simp)
            (Nat.mod_lt _ (by norm_num))
          simp only [Option.toList, List.nil_append]
          refine ⟨?_, hrec.2.1, hrec.2.2.1, hrec.2.2.2.1, hrec.2.2.2.2⟩
          rw [hrec.1]
          dsimp only
          rw [publishVal_cons]

/-- The first two events of a channel window (INIT then DELAY) consume no
reading and publish nothing; they leave the machine in ACCUMULATE with a
zeroed accumulator and the freshly computed target. -/
lemma run_init_prelude (e : Engine) (r1 r2 : Nat) (rest : List Nat) (hs : e.state = .INIT) :
    run e (r1 :: r2 :: rest) =
      run { e with
              adcsrb := (e.adcsrb &&& 223) |||
                (if (e.config.getD e.chan_i ⟨0, 0⟩).mux &&& 32 = 0 then 0 else 32)
              admux := (e.admux &&& 224) ||| ((e.config.getD e.chan_i ⟨0, 0⟩).mux &&& 31)
              sample_accumulator := 0
              sample_cnt := 0
              sample_cnt_target :=
                (1 <<< (e.config.getD e.chan_i ⟨0, 0⟩).sample_count_log2) % 65536
              state := .ACCUMULATE } rest := by
  rw [run_cons, isrStep_INIT e r1 hs]
  dsimp only
  rw [run_cons, isrStep_DELAY _ r2 rfl]
  rfl

/-- One full channel window from INIT: one select event, one settle event and
`2 ^ sample_count_log2` accumulate events finalize the current channel exactly
once, publishing the (rounded) average of the accumulated readings. -/
lemma channel_cycle (e : Engine) (raws : List Nat) (hs : e.state = .INIT)
    (hL : (e.config.getD e.chan_i ⟨0, 0⟩).sample_count_log2 ≤ 15)
    (hlen : raws.length = 2 + 2 ^ (e.config.getD e.chan_i ⟨0, 0⟩).sample_count_log2) :
    (run e raws).2 = [(e.chan_i,
        publishVal (e.config.getD e.chan_i ⟨0, 0⟩).sample_count_log2
          (2 ^ (e.config.getD e.chan_i ⟨0, 0⟩).sample_count_log2) 0 (raws.drop 2))] ∧
    (run e raws).1.state = .INIT ∧
    (run e raws).1.chan_i =
      (if (e.chan_i + 1) % 256 = e.chan_count then 0 else (e.chan_i + 1) % 256) ∧
    (run e raws).1.chan_count = e.chan_count ∧
    (run e raws).1.config = e.config := by
  have hpow : (1 <<< (e.config.getD e.chan_i ⟨0, 0⟩).sample_count_log2) % 65536 =
      2 ^ (e.config.getD e.chan_i ⟨0, 0⟩).sample_count_log2 := by
    rw [Nat.shiftLeft_eq, one_mul, Nat.mod_eq_of_lt]
    calc 2 ^ (e.config.getD e.chan_i ⟨0, 0⟩).sample_count_log2
        ≤ 2 ^ 15 := Nat.pow_le_pow_right (by norm_num) hL
      _ < 65536 := by norm_num
  match raws with
  | [] =>
      exfalso
      have h2 : 0 < 2 ^ (e.config.getD e.chan_i ⟨0, 0⟩).sample_count_log2 :=
        Nat.pow_pos (by norm_num)
      simp only [List.length_nil] at hlen
      omega
  | [r1] =>
      exfalso
      have h2 : 0 < 2 ^ (e.config.getD e.chan_i ⟨0, 0⟩).sample_count_log2 :=
        Nat.pow_pos (by norm_num)
      simp only [List.length_cons, List.length_nil] at hlen
      omega
  | r1 :: r2 :: rest =>
      have hrest : rest.length = 2 ^ (e.config.getD e.chan_i ⟨0, 0⟩).sample_count_log2 := by
        have h2 : (r1 :: r2 :: rest).length = rest.length + 2 := by simp
        omega
      rw [run_init_prelude e r1 r2 rest hs]
      have hpos : 0 < 2 ^ (e.config.getD e.chan_i ⟨0, 0⟩).sample_count_log2 :=
        Nat.pow_pos (by norm_num)
      obtain ⟨h1, h2, h3, h4, h5⟩ := run_acc_fin rest
        { e with
            adcsrb := (e.adcsrb &&& 223) |||
              (if (e.config.getD e.chan_i ⟨0, 0⟩).mux &&& 32 = 0 then 0 else 32)
            admux := (e.admux &&& 224) ||| ((e.config.getD e.chan_i ⟨0, 0⟩).mux &&& 31)
            sample_accumulator := 0
            sample_cnt := 0
            sample_cnt_target :=
              (1 <<< (e.config.getD e.chan_i ⟨0, 0⟩).sample_count_log2) % 65536
            state := .ACCUMULATE }
        rfl
        (show (1 <<< (e.config.getD e.chan_i ⟨0, 0⟩).sample_count_log2) % 65536 ≤ 32768 by
          rw [hpow]
          calc 2 ^ (e.config.getD e.chan_i ⟨0, 0⟩).sample_count_log2
              ≤ 2 ^ 15 := Nat.pow_le_pow_right (by norm_num) hL
            _ ≤ 32768 := by norm_num)
        (show 0 + rest.length =
            (1 <<< (e.config.getD e.chan_i ⟨0, 0⟩).sample_count_log2) % 65536 by
          rw [hpow, Nat.zero_add, hrest])
        (by intro hemp; rw [hemp] at hrest; simp only [List.length_nil] at hrest; omega)
        (by norm_num)
      refine ⟨?_, h2, h3, h4, h5⟩
      rw [h1]
      dsimp only
      rw [hpow]
      rfl

/-- Fewer events than a full channel window finalizes nothing. -/
lemma channel_cycle_short (e : Engine) (raws : List Nat) (hs : e.state = .INIT)
    (hL : (e.config.getD e.chan_i ⟨0, 0⟩).sample_count_log2 ≤ 15)
    (hshort : raws.length < 2 + 2 ^ (e.config.getD e.chan_i ⟨0, 0⟩).sample_count_log2) :
    (run e raws).2 = [] := by
  have hpow : (1 <<< (e.config.getD e.chan_i ⟨0, 0⟩).sample_count_log2) % 65536 =
      2 ^ (e.config.getD e.chan_i ⟨0, 0⟩).sample_count_log2 := by
    rw [Nat.shiftLeft_eq, one_mul, Nat.mod_eq_of_lt]
    calc 2 ^ (e.config.getD e.chan_i ⟨0, 0⟩).sample_count_log2
        ≤ 2 ^ 15 := Nat.pow_le_pow_right (by norm_num) hL
      _ < 65536 := by norm_num
  match raws with
  | [] => rfl
  | [r1] =>
      rw [run_cons, isrStep_INIT e r1 hs]
      rfl
  | r1 :: r2 :: rest =>
      have hrest : rest.length < 2 ^ (e.config.getD e.chan_i ⟨0, 0⟩).sample_count_log2 := by
        have h2 : (r1 :: r2 :: rest).length = rest.length + 2 := by simp
        omega
      rw [run_init_prelude e r1 r2 rest hs]
      rw [run_acc_short rest
        { e with
            adcsrb := (e.adcsrb &&& 223) |||
              (if (e.config.getD e.chan_i ⟨0, 0⟩).mux &&& 32 = 0 then 0 else 32)
            admux := (e.admux &&& 224) ||| ((e.config.getD e.chan_i ⟨0, 0⟩).mux &&& 31)
            sample_accumulator := 0
            sample_cnt := 0
            sample_cnt_target :=
              (1 <<< (e.config.getD e.chan_i ⟨0, 0⟩).sample_count_log2) % 65536
            state := .ACCUMULATE }
        rfl
        (show (1 <<< (e.config.getD e.chan_i ⟨0, 0⟩).sample_count_log2) % 65536 ≤ 32768 by
          rw [hpow]
          calc 2 ^ (e.config.getD e.chan_i ⟨0, 0⟩).sample_count_log2
              ≤ 2 ^ 15 := Nat.pow_le_pow_right (by norm_num) hL
            _ ≤ 32768 := by norm_num)
        (show 0 + rest.length <
            (1 <<< (e.config.getD e.chan_i ⟨0, 0⟩).sample_count_log2) % 65536 by
          rw [hpow, Nat.zero_add]; exact hrest)
        (by norm_num)]

/-! ### Per-invocation frame facts -/

/-- The ISR never changes the channel count, the configuration table or the
installed callbacks. -/
lemma isrStep_frame (e : Engine) (raw : Nat) :
    (isrStep e raw).st.chan_count = e.chan_count ∧
    (isrStep e raw).st.config = e.config ∧
    (isrStep e raw).st.channel_cb = e.channel_cb ∧
    (isrStep e raw).st.channel_scan_cb = e.channel_scan_cb := by
  rcases hst : e.state with _ | _ | _
  · rw [isrStep_INIT e raw hst]; exact ⟨rfl, rfl, rfl, rfl⟩
  · rw [isrStep_DELAY e raw hst]; exact ⟨rfl, rfl, rfl, rfl⟩
  · by_cases hc : (e.sample_cnt + 1) % 65536 = e.sample_cnt_target
    · rw [isrStep_acc_fin e raw hst hc]; exact ⟨rfl, rfl, rfl, rfl⟩
    · rw [isrStep_acc_cont e raw hst hc]; exact ⟨rfl, rfl, rfl, rfl⟩

/-- An invocation that finalizes nothing leaves the channel index and both
result arrays untouched. -/
lemma isrStep_none_frame (e : Engine) (raw : Nat) (h : (isrStep e raw).final = none) :
    (isrStep e raw).st.chan_i = e.chan_i ∧
    (isrStep e raw).st.sn = e.sn ∧
    (isrStep e raw).st.sample = e.sample := by
  rcases hst : e.state with _ | _ | _
  · rw [isrStep_INIT e raw hst]; exact ⟨rfl, rfl, rfl⟩
  · rw [isrStep_DELAY e raw hst]; exact ⟨rfl, rfl, rfl⟩
  · by_cases hc : (e.sample_cnt + 1) % 65536 = e.sample_cnt_target
    · rw [isrStep_acc_fin e raw hst hc] at h; cases h
    · rw [isrStep_acc_cont e raw hst hc]; exact ⟨rfl, rfl, rfl⟩

/-- An invocation that finalizes channel `c` with value `v` does so at the
current channel index, stores `v` there, bumps that channel's sequence number
modulo 256, and advances the channel index with uint8 wrap-around. -/
lemma isrStep_some_facts (e : Engine) (raw c v : Nat)
    (h : (isrStep e raw).final = some (c, v)) :
    c = e.chan_i ∧
    (isrStep e raw).st.chan_i =
      (if (e.chan_i + 1) % 256 = e.chan_count then 0 else (e.chan_i + 1) % 256) ∧
    (isrStep e raw).st.sn = e.sn.set e.chan_i ((e.sn.getD e.chan_i 0 + 1) % 256) ∧
    (isrStep e raw).st.sample = e.sample.set e.chan_i v := by
  rcases hst : e.state with _ | _ | _
  · rw [isrStep_INIT e raw hst] at h; cases h
  · rw [isrStep_DELAY e raw hst] at h; cases h
  · by_cases hc : (e.sample_cnt + 1) % 65536 = e.sample_cnt_target
    · rw [isrStep_acc_fin e raw hst hc] at h ⊢
      obtain ⟨hc', hv⟩ := Prod.mk.injEq .. ▸ Option.some.injEq .. ▸ h
      subst hc'
      refine ⟨rfl, rfl, rfl, ?_⟩
      rw [hv]
    · rw [isrStep_acc_cont e raw hst hc] at h; cases h

/-- Finalizations from any state follow the round-robin order starting at the
current channel index. -/
lemma run_round_robin : ∀ (raws : List Nat) (e : Engine),
    e.chan_i < e.chan_count → e.chan_count ≤ 255 →
    ∀ i, i < ((run e raws).2).length →
      (((run e raws).2).getD i (0, 0)).1 = (e.chan_i + i) % e.chan_count := by
  intro raws
  induction raws with
  | nil => intro e _ _ i hi; simp [run_nil] at hi
  | cons r rs ih =>
      intro e hci hcc i hi
      rw [run_cons] at hi ⊢
      rcases hfin : (isrStep e r).final with _ | ⟨c, v⟩
      · rw [hfin] at hi
        simp only [Option.toList, List.nil_append] at hi ⊢
        obtain ⟨hchi, _, _⟩ := isrStep_none_frame e r hfin
        obtain ⟨hcc', _, _, _⟩ := isrStep_frame e r
        have hres := ih (isrStep e r).st (by rw [hchi, hcc']; exact hci)
          (by rw [hcc']; exact hcc) i hi
        rw [hres, hchi, hcc']
      · rw [hfin] at hi
        simp only [Option.toList, List.cons_append, List.nil_append] at hi ⊢
        obtain ⟨hc, hchi, _, _⟩ := isrStep_some_facts e r c v hfin
        obtain ⟨hcc', _, _, _⟩ := isrStep_frame e r
        have hwrap : (isrStep e r).st.chan_i = (e.chan_i + 1) % e.chan_count := by
          rw [hchi]
          rw [Nat.mod_eq_of_lt (show e.chan_i + 1 < 256 by omega)]
          by_cases hw : e.chan_i + 1 = e.chan_count
          · rw [if_pos hw, hw, Nat.mod_self]
          · rw [if_neg hw, Nat.mod_eq_of_lt (by omega)]
        cases i with
        | zero =>
            simp only [List.getD_cons_zero]
            rw [hc, Nat.add_zero, Nat.mod_eq_of_lt hci]
        | succ j =>
            simp only [List.getD_cons_succ]
            have hj : j < ((run (isrStep e r).st rs).2).length := by
              simp only [List.length_cons] at hi; omega
            have hres := ih (isrStep e r).st
              (by rw [hwrap, hcc']; exact Nat.mod_lt _ (by omega))
              (by rw [hcc']; exact hcc) j hj
            rw [hres, hwrap, hcc', Nat.mod_add_mod]
            congr 1
            omega

/-- Running `m` consecutive channel windows from INIT at channel `k`
finalizes channels `k, k+1, ..., k+m-1` in order, consuming per channel
`2 + 2 ^ sample_count_log2` events, and wraps the channel index to 0 exactly
when the last configured channel was finalized. -/
lemma scan_cycle : ∀ (m k : Nat) (e : Engine) (raws : List Nat),
    e.state = .INIT →
    e.chan_i = k →
    e.config.length = e.chan_count →
    e.chan_count ≤ 255 →
    k + m ≤ e.chan_count →
    (∀ c ∈ e.config, c.sample_count_log2 ≤ 15) →
    raws.length =
      (((e.config.drop k).take m).map (fun c => 2 + 2 ^ c.sample_count_log2)).sum →
    ((run e raws).2.map Prod.fst = List.range' k m) ∧
    (run e raws).1.state = .INIT ∧
    (run e raws).1.chan_i = (if k + m = e.chan_count ∧ 1 ≤ m then 0 else k + m) ∧
    (run e raws).1.chan_count = e.chan_count ∧
    (run e raws).1.config = e.config := by
  intro m
  induction m with
  | zero =>
      intro k e raws hs hk hcl hcc hkm hbound hlen
      have hr : raws = [] := List.eq_nil_of_length_eq_zero (by simpa using hlen)
      subst hr
      rw [run_nil]
      refine ⟨by simp, hs, ?_, rfl, rfl⟩
      rw [if_neg (fun h => absurd h.2 (by omega))]
      show e.chan_i = k + 0
      omega
  | succ n ih =>
      intro k e raws hs hk hcl hcc hkm hbound hlen
      have hkN : k < e.chan_count := by omega
      have hklen : k < e.config.length := by omega
      have hgetD : e.config.getD k ⟨0, 0⟩ = e.config[k] :=
        List.getD_eq_getElem e.config ⟨0, 0⟩ hklen
      have hL15 : (e.config.getD k ⟨0, 0⟩).sample_count_log2 ≤ 15 := by
        rw [hgetD]
        exact hbound _ (List.getElem_mem hklen)
      have hdrop : e.config.drop k = e.config[k] :: e.config.drop (k + 1) :=
        List.drop_eq_getElem_cons hklen
      have hlen' : raws.length =
          (2 + 2 ^ (e.config[k]).sample_count_log2) +
          (((e.config.drop (k + 1)).take n).map
            (fun c => 2 + 2 ^ c.sample_count_log2)).sum := by
        rw [hdrop, List.take_succ_cons, List.map_cons, List.sum_cons] at hlen
        exact hlen
      have hBle : 2 + 2 ^ (e.config[k]).sample_count_log2 ≤ raws.length := by omega
      have htakelen : (raws.take (2 + 2 ^ (e.config[k]).sample_count_log2)).length =
          2 + 2 ^ (e.config[k]).sample_count_log2 := by
        rw [List.length_take, Nat.min_eq_left hBle]
      have hdroplen : (raws.drop (2 + 2 ^ (e.config[k]).sample_count_log2)).length =
          raws.length - (2 + 2 ^ (e.config[k]).sample_count_log2) :=
        List.length_drop ..
      obtain ⟨c1, c2, c3, c4, c5⟩ := channel_cycle e
        (raws.take (2 + 2 ^ (e.config[k]).sample_count_log2)) hs
        (show (e.config.getD e.chan_i ⟨0, 0⟩).sample_count_log2 ≤ 15 by
          rw [hk]; exact hL15)
        (show (raws.take (2 + 2 ^ (e.config[k]).sample_count_log2)).length =
            2 + 2 ^ (e.config.getD e.chan_i ⟨0, 0⟩).sample_count_log2 by
          rw [hk, htakelen, hgetD])
      rw [hk] at c1 c3
      have hruns := run_append (raws.take (2 + 2 ^ (e.config[k]).sample_count_log2))
        (raws.drop (2 + 2 ^ (e.config[k]).sample_count_log2)) e
      rw [List.take_append_drop] at hruns
      rw [hruns]
      have hmod : (k + 1) % 256 = k + 1 := Nat.mod_eq_of_lt (by omega)
      by_cases hw : k + 1 = e.chan_count
      · have hn0 : n = 0 := by omega
        subst hn0
        have hsum0 : (((e.config.drop (k + 1)).take 0).map
            (fun c => 2 + 2 ^ c.sample_count_log2)).sum = 0 := by simp
        have hdnil : raws.drop (2 + 2 ^ (e.config[k]).sample_count_log2) = [] :=
          List.eq_nil_of_length_eq_zero (by rw [hdroplen]; omega)
        rw [hdnil, run_nil]
        refine ⟨?_, c2, ?_, c4, c5⟩
        · rw [c1]; simp [List.range'_one]
        · rw [c3, hmod, if_pos hw, if_pos ⟨by omega, by omega⟩]
      · have hk1 : (run e (raws.take (2 + 2 ^ (e.config[k]).sample_count_log2))).1.chan_i
            = k + 1 := by rw [c3, hmod, if_neg hw]
        obtain ⟨d1, d2, d3, d4, d5⟩ := ih (k + 1)
          (run e (raws.take (2 + 2 ^ (e.config[k]).sample_count_log2))).1
          (raws.drop (2 + 2 ^ (e.config[k]).sample_count_log2))
          c2 hk1
          (by rw [c5, c4]; exact hcl)
          (by rw [c4]; exact hcc)
          (by rw [c4]; omega)
          (by rw [c5]; exact hbound)
          (by rw [c5, hdroplen]; omega)
        rw [c4] at d3
        refine ⟨?_, d2, ?_, by rw [d4, c4], by rw [d5, c5]⟩
        · rw [List.map_append, c1, d1]
          rw [List.range'_succ k n 1]
          rfl
        · rw [d3]
          split_ifs <;> omega

/-! ### Arithmetic facts about the published average -/

lemma map_mod_eq_self : ∀ (l : List Nat), (∀ r ∈ l, r < 65536) →
    l.map (fun r => r % 65536) = l := by
  intro l
  induction l with
  | nil => intro _; rfl
  | cons x xs ih =>
      intro h
      simp only [List.map_cons, List.cons.injEq]
      exact ⟨Nat.mod_eq_of_lt (h x (by simp)), ih (fun r hr => h r (by simp [hr]))⟩

/-- Dividing the biased sum by the window size cannot exceed the per-reading
bound: `(S + 2^L/2) / 2^L ≤ b` whenever `S ≤ 2^L * b`. -/
lemma avg_div_le (L S b : Nat) (hS : S ≤ 2 ^ L * b) :
    (S + 2 ^ L / 2) / 2 ^ L ≤ b := by
  have hpos : 0 < 2 ^ L := Nat.pow_pos (by norm_num)
  have h3 : 2 ^ L / 2 / 2 ^ L = 0 :=
    Nat.div_eq_of_lt (Nat.div_lt_self hpos (by norm_num))
  calc (S + 2 ^ L / 2) / 2 ^ L
      ≤ (2 ^ L * b + 2 ^ L / 2) / 2 ^ L := Nat.div_le_div_right (by omega)
    _ = b + 2 ^ L / 2 / 2 ^ L := Nat.mul_add_div hpos b (2 ^ L / 2)
    _ = b := by rw [h3, Nat.add_zero]

/-- With a window of at most 2^15 readings, each below 2^16, none of the
fixed-width reductions inside `publishVal` truncates: the published value is
the exact (rounded) average of the accumulated sum. -/
lemma publishVal_no_overflow (L : Nat) (raws : List Nat) (hL : L ≤ 15)
    (hlen : raws.length = 2 ^ L) (hraw : ∀ r ∈ raws, r < 65536) :
    publishVal L (2 ^ L) 0 raws =
      (if L = 0 then raws.sum else (raws.sum + 2 ^ L / 2) >>> L) := by
  unfold publishVal
  rw [map_mod_eq_self raws hraw]
  have hpow15 : 2 ^ L ≤ 32768 :=
    le_trans (Nat.pow_le_pow_right (by norm_num) hL) (by norm_num)
  have hSb : raws.sum ≤ 2 ^ L * 65535 := by
    have h := sum_le_length_mul raws 65535 (fun x hx => by have := hraw x hx; omega)
    rw [hlen] at h
    exact h
  have hS32 : raws.sum < 4294967296 := by
    have : 2 ^ L * 65535 ≤ 32768 * 65535 := Nat.mul_le_mul_right _ hpow15
    omega
  rw [Nat.zero_add, Nat.mod_eq_of_lt hS32]
  show (if L ≠ 0 then ((raws.sum + 2 ^ L >>> 1) % 4294967296) >>> L
      else raws.sum) % 65536 =
    if L = 0 then raws.sum else (raws.sum + 2 ^ L / 2) >>> L
  by_cases h0 : L = 0
  · subst h0
    rw [if_neg (show ¬(0 : Nat) ≠ 0 by norm_num), if_pos rfl]
    exact Nat.mod_eq_of_lt (by simp only [pow_zero, one_mul] at hSb; omega)
  · rw [if_pos h0, if_neg h0]
    have hsh : (2 : Nat) ^ L >>> 1 = 2 ^ L / 2 := by
      rw [Nat.shiftRight_eq_div_pow, pow_one]
    rw [hsh]
    have hhalf : 2 ^ L / 2 ≤ 16384 := by omega
    have hin : raws.sum + 2 ^ L / 2 < 4294967296 := by
      have : 2 ^ L * 65535 ≤ 32768 * 65535 := Nat.mul_le_mul_right _ hpow15
      omega
    rw [Nat.mod_eq_of_lt hin]
    refine Nat.mod_eq_of_lt ?_
    rw [Nat.shiftRight_eq_div_pow]
    have := avg_div_le L raws.sum 65535 hSb
    omega

/-- One channel window run from INIT publishes exactly the rounded average of
its accumulated 16-bit readings (no fixed-width reduction truncates). -/
lemma run_window_publishes (e : Engine) (raws : List Nat) (d1 d2 : Nat)
    (hs : e.state = .INIT)
    (hL : (e.config.getD e.chan_i ⟨0, 0⟩).sample_count_log2 ≤ 15)
    (hlen : raws.length = 2 ^ (e.config.getD e.chan_i ⟨0, 0⟩).sample_count_log2)
    (hraw : ∀ r ∈ raws, r < 65536) :
    (run e (d1 :: d2 :: raws)).2 = [(e.chan_i,
      if (e.config.getD e.chan_i ⟨0, 0⟩).sample_count_log2 = 0 then raws.sum
      else (raws.sum +
          2 ^ (e.config.getD e.chan_i ⟨0, 0⟩).sample_count_log2 / 2) >>>
        (e.config.getD e.chan_i ⟨0, 0⟩).sample_count_log2)] := by
  obtain ⟨c1, _, _, _, _⟩ := channel_cycle e (d1 :: d2 :: raws) hs hL
    (by simp only [List.length_cons, hlen]; omega)
  rw [c1]
  have hdrop2 : (d1 :: d2 :: raws).drop 2 = raws := rfl
  rw [hdrop2, publishVal_no_overflow _ raws hL hlen hraw]

/-! ### Claim theorems -/

/-- Claim C1: when the conversion-complete handler accumulates the raw
reading that makes `raw_count` reach `target_count = 2^averaging_log2`, the
value it publishes equals the accumulated sum verbatim if
`averaging_log2 = 0`, and otherwise `(sum + target_count/2) >>
averaging_log2` (round-to-nearest).  Here one full channel window (select
event `d1`, settle event `d2`, then the `2^averaging_log2` accumulated
readings `raws`) is run from the INIT state and the single finalization it
produces is characterized. -/
theorem C1_publish_round_to_nearest (e : Engine) (raws : List Nat) (d1 d2 : Nat)
    (hs : e.state = .INIT)
    (hL : (e.config.getD e.chan_i ⟨0, 0⟩).sample_count_log2 ≤ 15)
    (hlen : raws.length = 2 ^ (e.config.getD e.chan_i ⟨0, 0⟩).sample_count_log2)
    (hraw : ∀ r ∈ raws, r < 65536) :
    (run e (d1 :: d2 :: raws)).2 = [(e.chan_i,
      if (e.config.getD e.chan_i ⟨0, 0⟩).sample_count_log2 = 0 then raws.sum
      else (raws.sum +
          2 ^ (e.config.getD e.chan_i ⟨0, 0⟩).sample_count_log2 / 2) >>>
        (e.config.getD e.chan_i ⟨0, 0⟩).sample_count_log2)] :=
  run_window_publishes e raws d1 d2 hs hL hlen hraw

/-- Witness for C1 at the spec's own example: depth 2 (window 4), readings
`[1,1,1,2]`, accumulated sum 5, published value `(5+2) >> 2 = 1`. -/
theorem C1_witness :
    (run (begin engine0 [⟨0, 2⟩]).1 [9, 9, 1, 1, 1, 2]).2 = [(0, 1)] := by
  have h := C1_publish_round_to_nearest (begin engine0 [⟨0, 2⟩]).1 [1, 1, 1, 2] 9 9
    (by decide) (by decide) (by decide) (by decide)
  rw [h]
  decide

/-- Claim C9: for `averaging_log2 ≤ 15` and 10-bit raw readings (each at
most 1023), the uint16 target `1 << averaging_log2` does not wrap, the
32-bit accumulator never wraps (the published value equals the exact
unbounded-arithmetic rounded average), and the published value is at most
1023, so the cast into the 16-bit sample slot loses nothing. -/
theorem C9_no_overflow (e : Engine) (raws : List Nat) (d1 d2 : Nat)
    (hs : e.state = .INIT)
    (hL : (e.config.getD e.chan_i ⟨0, 0⟩).sample_count_log2 ≤ 15)
    (hlen : raws.length = 2 ^ (e.config.getD e.chan_i ⟨0, 0⟩).sample_count_log2)
    (hraw : ∀ r ∈ raws, r ≤ 1023) :
    (1 <<< (e.config.getD e.chan_i ⟨0, 0⟩).sample_count_log2) % 65536 =
      2 ^ (e.config.getD e.chan_i ⟨0, 0⟩).sample_count_log2 ∧
    (run e (d1 :: d2 :: raws)).2 = [(e.chan_i,
      if (e.config.getD e.chan_i ⟨0, 0⟩).sample_count_log2 = 0 then raws.sum
      else (raws.sum +
          2 ^ (e.config.getD e.chan_i ⟨0, 0⟩).sample_count_log2 / 2) /
        2 ^ (e.config.getD e.chan_i ⟨0, 0⟩).sample_count_log2)] ∧
    (if (e.config.getD e.chan_i ⟨0, 0⟩).sample_count_log2 = 0 then raws.sum
      else (raws.sum +
          2 ^ (e.config.getD e.chan_i ⟨0, 0⟩).sample_count_log2 / 2) /
        2 ^ (e.config.getD e.chan_i ⟨0, 0⟩).sample_count_log2) ≤ 1023 := by
  have hb : raws.sum ≤ 2 ^ (e.config.getD e.chan_i ⟨0, 0⟩).sample_count_log2 * 1023 := by
    have h := sum_le_length_mul raws 1023 hraw
    rw [hlen] at h
    exact h
  have hdivshift :
      (raws.sum + 2 ^ (e.config.getD e.chan_i ⟨0, 0⟩).sample_count_log2 / 2) >>>
        (e.config.getD e.chan_i ⟨0, 0⟩).sample_count_log2 =
      (raws.sum + 2 ^ (e.config.getD e.chan_i ⟨0, 0⟩).sample_count_log2 / 2) /
        2 ^ (e.config.getD e.chan_i ⟨0, 0⟩).sample_count_log2 :=
    Nat.shiftRight_eq_div_pow ..
  refine ⟨?_, ?_, ?_⟩
  · rw [Nat.shiftLeft_eq, one_mul, Nat.mod_eq_of_lt]
    calc 2 ^ (e.config.getD e.chan_i ⟨0, 0⟩).sample_count_log2
        ≤ 2 ^ 15 := Nat.pow_le_pow_right (by norm_num) hL
      _ < 65536 := by norm_num
  · rw [run_window_publishes e raws d1 d2 hs hL hlen
      (fun r hr => by have := hraw r hr; omega)]
    rw [hdivshift]
  · by_cases h0 : (e.config.getD e.chan_i ⟨0, 0⟩).sample_count_log2 = 0
    · rw [if_pos h0]
      rw [h0] at hb
      simp only [pow_zero, one_mul] at hb
      exact hb
    · rw [if_neg h0]
      exact avg_div_le _ raws.sum 1023 hb

/-- Witness for C9: depth 2, readings `[1023, 1023, 1023, 1023]` publish
exactly 1023 with no truncation. -/
theorem C9_witness :
    (1 <<< ((begin engine0 [⟨0, 2⟩]).1.config.getD 0 ⟨0, 0⟩).sample_count_log2) % 65536 =
      2 ^ ((begin engine0 [⟨0, 2⟩]).1.config.getD 0 ⟨0, 0⟩).sample_count_log2 ∧
    (run (begin engine0 [⟨0, 2⟩]).1 [0, 0, 1023, 1023, 1023, 1023]).2 =
      [(0, if ((begin engine0 [⟨0, 2⟩]).1.config.getD 0 ⟨0, 0⟩).sample_count_log2 = 0
        then ([1023, 1023, 1023, 1023] : List Nat).sum
        else (([1023, 1023, 1023, 1023] : List Nat).sum +
            2 ^ ((begin engine0 [⟨0, 2⟩]).1.config.getD 0 ⟨0, 0⟩).sample_count_log2 / 2) /
          2 ^ ((begin engine0 [⟨0, 2⟩]).1.config.getD 0 ⟨0, 0⟩).sample_count_log2)] ∧
    (if ((begin engine0 [⟨0, 2⟩]).1.config.getD 0 ⟨0, 0⟩).sample_count_log2 = 0
        then ([1023, 1023, 1023, 1023] : List Nat).sum
        else (([1023, 1023, 1023, 1023] : List Nat).sum +
            2 ^ ((begin engine0 [⟨0, 2⟩]).1.config.getD 0 ⟨0, 0⟩).sample_count_log2 / 2) /
          2 ^ ((begin engine0 [⟨0, 2⟩]).1.config.getD 0 ⟨0, 0⟩).sample_count_log2) ≤ 1023 :=
  C9_no_overflow (begin engine0 [⟨0, 2⟩]).1 [1023, 1023, 1023, 1023] 0 0
    (by decide) (by decide) (by decide) (by decide)

/-- Claim C2: every channel's 8-bit sequence counter is 0 when a session
begins (`begin` zeroes the freshly allocated `sn` array), and one handler
invocation increments a channel's counter by exactly 1 modulo 256 if and only
if that invocation finalizes that channel (`raw_count` reaches
`target_count`); SELECT/SETTLE-phase and partial-accumulation invocations
leave every counter unchanged. -/
theorem C2_sequence_counter (e : Engine) (cfg : List ChannelConfig) (raw i : Nat)
    (hlen : e.chan_i < e.sn.length) :
    (begin e cfg).1.sn = List.replicate cfg.length 0 ∧
    ((isrStep e raw).st.sn.getD i 0 =
      if (isrStep e raw).final.map Prod.fst = some i
      then (e.sn.getD i 0 + 1) % 256
      else e.sn.getD i 0) := by
  refine ⟨rfl, ?_⟩
  rcases hfin : (isrStep e raw).final with _ | ⟨c, v⟩
  · rw [(isrStep_none_frame e raw hfin).2.1]
    simp
  · obtain ⟨hc, _, hsn, _⟩ := isrStep_some_facts e raw c v hfin
    subst hc
    rw [hsn]
    by_cases hi : i = e.chan_i
    · subst hi
      rw [if_pos (by simp)]
      exact getD_set_self e.sn e.chan_i _ 0 hlen
    · rw [if_neg (by simp; omega)]
      exact getD_set_ne e.sn e.chan_i i _ 0 (by omega)

/-- Witness for C2: a depth-0 single-channel session; the third event
finalizes channel 0 and bumps its counter from 0 to 1. -/
theorem C2_witness :
    (isrStep (begin engine0 [⟨0, 0⟩]).1 5).st.sn.getD 0 0 =
      (if (isrStep (begin engine0 [⟨0, 0⟩]).1 5).final.map Prod.fst = some 0
       then ((begin engine0 [⟨0, 0⟩]).1.sn.getD 0 0 + 1) % 256
       else (begin engine0 [⟨0, 0⟩]).1.sn.getD 0 0) :=
  (C2_sequence_counter (begin engine0 [⟨0, 0⟩]).1 [] 5 0 (by decide)).2

/-- Claim C3: in a session with `N ≥ 1` configured channels, the sequence of
channel indices at which samples are finalized is exactly
`0, 1, ..., N-1, 0, 1, ...` across all events of the session. -/
theorem C3_round_robin (e : Engine) (cfg : List ChannelConfig) (raws : List Nat)
    (hN : 1 ≤ cfg.length) (hN255 : cfg.length ≤ 255) :
    ∀ i, i < ((run (begin e cfg).1 raws).2).length →
      (((run (begin e cfg).1 raws).2).getD i (0, 0)).1 = i % cfg.length := by
  intro i hi
  have h := run_round_robin raws (begin e cfg).1
    (show 0 < cfg.length from hN)
    (show cfg.length ≤ 255 from hN255)
    i hi
  rw [h]
  show (0 + i) % cfg.length = i % cfg.length
  rw [Nat.zero_add]

/-- Witness for C3: two depth-0 channels, six events, the second
finalization is at channel `1 % 2`. -/
theorem C3_witness :
    (((run (begin engine0 [⟨0, 0⟩, ⟨0, 0⟩]).1 [1, 1, 1, 1, 1, 1]).2).getD 1 (0, 0)).1 =
      1 % 2 :=
  C3_round_robin engine0 [⟨0, 0⟩, ⟨0, 0⟩] [1, 1, 1, 1, 1, 1] (by decide) (by decide)
    1 (by decide)

/-- Claim C5: in every invocation that finalizes a channel, the result-store
write trace is exactly the sample-slot store followed by the
sequence-counter store, in that order; hence every prefix of the trace in
which the sequence-counter store already appears yields a sample array that
already holds the finalized value. -/
theorem C5_publish_order (e : Engine) (raw i v : Nat)
    (hf : (isrStep e raw).final = some (i, v))
    (hlen : i < e.sample.length) :
    ∃ s, (isrStep e raw).writes = [MemWrite.sampleW i v, MemWrite.snW i s] ∧
      ∀ k, MemWrite.snW i s ∈ ((isrStep e raw).writes.take k) →
        (applySampleWrites e.sample ((isrStep e raw).writes.take k)).getD i 0 = v := by
  rcases hst : e.state with _ | _ | _
  · rw [isrStep_INIT e raw hst] at hf; cases hf
  · rw [isrStep_DELAY e raw hst] at hf; cases hf
  · by_cases hc : (e.sample_cnt + 1) % 65536 = e.sample_cnt_target
    · rw [isrStep_acc_fin e raw hst hc] at hf ⊢
      obtain ⟨hi, hv⟩ := Prod.mk.injEq .. ▸ Option.some.injEq .. ▸ hf
      subst hi
      refine ⟨(e.sn.getD e.chan_i 0 + 1) % 256, by rw [hv], ?_⟩
      intro k hk
      match k with
      | 0 => simp at hk
      | 1 => simp at hk
      | (n + 2) =>
          have htake : ([MemWrite.sampleW e.chan_i (publishVal
              (e.config.getD e.chan_i ⟨0, 0⟩).sample_count_log2
              e.sample_cnt_target e.sample_accumulator [raw]),
            MemWrite.snW e.chan_i ((e.sn.getD e.chan_i 0 + 1) % 256)].take (n + 2)) =
              [MemWrite.sampleW e.chan_i (publishVal
                (e.config.getD e.chan_i ⟨0, 0⟩).sample_count_log2
                e.sample_cnt_target e.sample_accumulator [raw]),
              MemWrite.snW e.chan_i ((e.sn.getD e.chan_i 0 + 1) % 256)] :=
            List.take_of_length_le (by simp)
          rw [htake]
          show ((e.sample.set e.chan_i _).getD e.chan_i 0) = v
          rw [hv]
          exact getD_set_self e.sample e.chan_i _ 0 hlen
    · rw [isrStep_acc_cont e raw hst hc] at hf; cases hf

/-- Witness for C5: a single-channel, depth-0 state one event before
finalization; the reading 5 is published to slot 0. -/
theorem C5_witness :
    ∃ s, (isrStep { engine0 with
        chan_count := 1
        state := .ACCUMULATE
        sample_cnt := 0
        sample_cnt_target := 1
        config := [⟨0, 0⟩]
        sn := [0]
        sample := [7] } 5).writes = [MemWrite.sampleW 0 5, MemWrite.snW 0 s] ∧
      ∀ k, MemWrite.snW 0 s ∈ ((isrStep { engine0 with
        chan_count := 1
        state := .ACCUMULATE
        sample_cnt := 0
        sample_cnt_target := 1
        config := [⟨0, 0⟩]
        sn := [0]
        sample := [7] } 5).writes.take k) →
        (applySampleWrites [7] ((isrStep { engine0 with
          chan_count := 1
          state := .ACCUMULATE
          sample_cnt := 0
          sample_cnt_target := 1
          config := [⟨0, 0⟩]
          sn := [0]
          sample := [7] } 5).writes.take k)).getD 0 0 = 5 :=
  C5_publish_order { engine0 with
        chan_count := 1
        state := .ACCUMULATE
        sample_cnt := 0
        sample_cnt_target := 1
        config := [⟨0, 0⟩]
        sn := [0]
        sample := [7] } 5 0 5 (by decide) (by decide)

/-- Claim C8: `get_sample`, `attach_channel_callback` and
`attach_scan_callback` each restore ADCSRA (and with it the ADIE
conversion-interrupt enable bit) exactly as found on entry — in particular
the event source stays disabled if it was disabled — and change no engine
state beyond, for the attach operations, the single callback pointer being
installed. -/
theorem C8_suppression_restores (e : Engine) (channel : Nat) (cb : Option Nat) :
    (get_sample e channel).2 = e ∧
    (get_sample e channel).1 = e.sample.getD channel 0 ∧
    attach_channel_callback e cb = { e with channel_cb := cb } ∧
    attach_scan_callback e cb = { e with channel_scan_cb := cb } := by
  obtain ⟨cc, cbv, scb, st, ci, cnt, tgt, acc, cfg, sq, smp, am, ab, aa⟩ := e
  exact ⟨rfl, rfl, rfl, rfl⟩

/-- Claim C10: `begin` never modifies the installed callbacks — they survive
a stop/start cycle unchanged — while the constructor nulls both and each
attach operation replaces exactly its own pointer. -/
theorem C10_begin_preserves_callbacks (e : Engine) (cfg : List ChannelConfig)
    (cb : Option Nat) :
    (begin e cfg).1.channel_cb = e.channel_cb ∧
    (begin e cfg).1.channel_scan_cb = e.channel_scan_cb ∧
    (construct e).channel_cb = none ∧
    (construct e).channel_scan_cb = none ∧
    (attach_channel_callback e cb).channel_cb = cb ∧
    (attach_channel_callback e cb).channel_scan_cb = e.channel_scan_cb ∧
    (attach_scan_callback e cb).channel_scan_cb = cb ∧
    (attach_scan_callback e cb).channel_cb = e.channel_cb :=
  ⟨rfl, rfl, rfl, rfl, rfl, rfl, rfl, rfl⟩

/-- Claim C7 counterexample: with channel count 0, `begin` itself reads
channel descriptor 0 (for the ADMUX programming at ScanADC.cpp line 155)
from the empty engine-owned table, and the first handler invocation (SELECT
phase) reads descriptor 0 as well — contradicting the claim that no
descriptor of the empty configuration table is ever read. -/
theorem C7_counterexample :
    ¬((begin engine0 []).2 = [] ∧
      (isrStep (begin engine0 []).1 0).configReads = []) := by
  decide

/-- Claim C7 (amended): calling `begin` with channel count 0 still arms the
hardware (ADCSRA = 236: enabled, auto-trigger, interrupt enabled, started)
and allocates empty result arrays, but the engine does not avoid the empty
table: `begin` itself reads descriptor 0 and every SELECT-phase handler
invocation reads descriptor `chan_i` out of bounds of the empty table. -/
theorem C7_empty_begin (e : Engine) (raw : Nat) :
    (begin e []).1.adcsra = 236 ∧
    (begin e []).2 = [0] ∧
    (isrStep (begin e []).1 raw).configReads = [0] ∧
    (begin e []).1.sn = [] ∧
    (begin e []).1.sample = [] := by
  refine ⟨by show (172 ||| 64 : Nat) = 236; decide, rfl, ?_, rfl, rfl⟩
  rw [isrStep_INIT _ raw rfl]
  rfl

/-- Claim C4: with `N ≥ 1` channels and an installed scan-level callback, a
handler invocation fires the scan callback exactly when it finalizes channel
`N-1`; in that invocation the event order is per-channel callback (when
installed) then scan callback, the scan callback receives the current sample
array of all `N` channels (already holding the just-finalized value), and the
channel index wraps to 0 in the same invocation. -/
theorem C4_scan_callback (e : Engine) (raw f : Nat)
    (hcb : e.channel_scan_cb = some f)
    (hN : 1 ≤ e.chan_count)
    (hci : e.chan_i < e.chan_count)
    (hcc : e.chan_count ≤ 255)
    (hslen : e.sample.length = e.chan_count) :
    (((isrStep e raw).final.map Prod.fst = some (e.chan_count - 1)) ↔
      (∃ s, Event.scanCb f s ∈ (isrStep e raw).events)) ∧
    (∀ v, (isrStep e raw).final = some (e.chan_count - 1, v) →
      (isrStep e raw).events =
        (e.channel_cb.map (fun g => Event.channelCb g (e.chan_count - 1) v)).toList
          ++ [Event.scanCb f (isrStep e raw).st.sample] ∧
      (isrStep e raw).st.sample.length = e.chan_count ∧
      (isrStep e raw).st.sample.getD (e.chan_count - 1) 0 = v ∧
      (isrStep e raw).st.chan_i = 0) := by
  rcases hst : e.state with _ | _ | _
  · rw [isrStep_INIT e raw hst]
    exact ⟨by simp, by simp⟩
  · rw [isrStep_DELAY e raw hst]
    exact ⟨by simp, by simp⟩
  · by_cases hc : (e.sample_cnt + 1) % 65536 = e.sample_cnt_target
    case neg =>
      rw [isrStep_acc_cont e raw hst hc]
      exact ⟨by simp, by simp⟩
    case pos =>
      rw [isrStep_acc_fin e raw hst hc]
      dsimp only
      have hmod : (e.chan_i + 1) % 256 = e.chan_i + 1 := Nat.mod_eq_of_lt (by omega)
      rw [hmod, hcb]
      by_cases hw : e.chan_i + 1 = e.chan_count
      · simp only [if_pos hw]
        have hNm : e.chan_count - 1 = e.chan_i := by omega
        rw [hNm]
        constructor
        · constructor
          · intro _
            refine ⟨e.sample.set e.chan_i (publishVal
              (e.config.getD e.chan_i ⟨0, 0⟩).sample_count_log2
              e.sample_cnt_target e.sample_accumulator [raw]), ?_⟩
            exact List.mem_append_right _ (by simp)
          · intro _
            simp
        · intro v hv
          have hveq : publishVal (e.config.getD e.chan_i ⟨0, 0⟩).sample_count_log2
              e.sample_cnt_target e.sample_accumulator [raw] = v :=
            (Prod.mk.injEq .. ▸ Option.some.injEq .. ▸ hv).2
          refine ⟨?_, ?_, ?_, ?_⟩
          · rcases hchan : e.channel_cb with _ | g
            · rw [hveq]; rfl
            · rw [hveq]; rfl
          · simp [hslen]
          · rw [hveq]
            exact getD_set_self e.sample e.chan_i v 0 (by omega)
          · trivial
      · simp only [if_neg hw]
        have hne : e.chan_i ≠ e.chan_count - 1 := by omega
        constructor
        · constructor
          · intro hsome
            exfalso
            simp only [Option.map_some'] at hsome
            have := Option.some.inj hsome
            omega
          · rintro ⟨s, hs⟩
            exfalso
            rcases hchan : e.channel_cb with _ | g
            · rw [hchan] at hs
              simp at hs
            · rw [hchan] at hs
              simp at hs
        · intro v hv
          exfalso
          have h1 := congrArg Prod.fst (Option.some.inj hv)
          simp at h1
          omega

/-- Witness for C4: in `engineLast` the next event finalizes the last
channel (value 5); the scan callback is the last event, receives the updated
one-element sample array, and the channel index wraps to 0. -/
theorem C4_witness :
    (isrStep engineLast 5).events =
      (engineLast.channel_cb.map
        (fun g => Event.channelCb g (engineLast.chan_count - 1) 5)).toList ++
        [Event.scanCb 3 (isrStep engineLast 5).st.sample] ∧
    (isrStep engineLast 5).st.sample.length = engineLast.chan_count ∧
    (isrStep engineLast 5).st.sample.getD (engineLast.chan_count - 1) 0 = 5 ∧
    (isrStep engineLast 5).st.chan_i = 0 :=
  (C4_scan_callback engineLast 5 3 (by decide) (by decide) (by decide) (by decide)
    (by decide)).2 5 (by decide)

/-- Claim C6 counterexample: for the single-channel configuration with
`averaging_log2 = 0` the claim predicts `1 settle + target_count = 2` events
per full scan, but after 2 events no channel has been finalized; the scan
completes only after `2 + target_count = 3` events (the SELECT state consumes
an event of its own). -/
theorem C6_counterexample :
    (run (begin engine0 [⟨0, 0⟩]).1 [5, 5]).2 = [] ∧
    (run (begin engine0 [⟨0, 0⟩]).1 [5, 5, 5]).2 = [(0, 5)] := by
  exact ⟨rfl, rfl⟩

/-- One event short of a full scan, exactly the first `N - 1` channels have
been finalized: the scan is not yet complete. -/
lemma scan_one_short (e : Engine) (short : List Nat)
    (hs : e.state = .INIT) (hchan : e.chan_i = 0)
    (hcl : e.config.length = e.chan_count)
    (hcc : e.chan_count ≤ 255) (hN : 1 ≤ e.chan_count)
    (hbound : ∀ c ∈ e.config, c.sample_count_log2 ≤ 15)
    (hshort : short.length + 1 =
      (e.config.map (fun c => 2 + 2 ^ c.sample_count_log2)).sum) :
    (run e short).2.length = e.chan_count - 1 := by
  have hNpos : e.chan_count - 1 < e.config.length := by omega
  have hgetC : e.config.getD (e.chan_count - 1) ⟨0, 0⟩ = e.config[e.chan_count - 1] :=
    List.getD_eq_getElem _ _ hNpos
  have hdropsplit : e.config.drop (e.chan_count - 1) =
      e.config[e.chan_count - 1] :: e.config.drop (e.chan_count - 1 + 1) :=
    List.drop_eq_getElem_cons hNpos
  have hsucc : e.chan_count - 1 + 1 = e.chan_count := by omega
  rw [hsucc] at hdropsplit
  have hdropN : e.config.drop e.chan_count = [] :=
    List.drop_eq_nil_of_le (by omega)
  set T := ((e.config.take (e.chan_count - 1)).map
    (fun c => 2 + 2 ^ c.sample_count_log2)).sum with hT
  have htsplit : (e.config.map (fun c => 2 + 2 ^ c.sample_count_log2)).sum =
      T + (2 + 2 ^ (e.config[e.chan_count - 1]).sample_count_log2) := by
    conv_lhs => rw [← List.take_append_drop (e.chan_count - 1) e.config]
    rw [List.map_append, List.sum_append, hdropsplit, hdropN]
    simp [hT]
  have hpowpos : 0 < 2 ^ (e.config[e.chan_count - 1]).sample_count_log2 :=
    Nat.pow_pos (by norm_num)
  have hTle : T ≤ short.length := by omega
  have htakelen : (short.take T).length = T := by
    rw [List.length_take, Nat.min_eq_left hTle]
  obtain ⟨q1, q2, q3, q4, q5⟩ := scan_cycle (e.chan_count - 1) 0 e (short.take T)
    hs hchan hcl hcc (by omega) hbound
    (by rw [List.drop_zero, ← hT, htakelen])
  have hlen1 : (run e (short.take T)).2.length = e.chan_count - 1 := by
    have h := congrArg List.length q1
    rw [List.length_map, List.length_range'] at h
    exact h
  have hq3 : (run e (short.take T)).1.chan_i = e.chan_count - 1 := by
    rw [q3, if_neg (fun h => absurd h.1 (by omega))]
    omega
  have hlast15 : (e.config[e.chan_count - 1]).sample_count_log2 ≤ 15 :=
    hbound _ (List.getElem_mem hNpos)
  have hdroplen2 : (short.drop T).length =
      1 + 2 ^ (e.config[e.chan_count - 1]).sample_count_log2 := by
    rw [List.length_drop]
    omega
  have hempty2 := channel_cycle_short (run e (short.take T)).1 (short.drop T) q2
    (by rw [q5, hq3, hgetC]; exact hlast15)
    (by rw [q5, hq3, hgetC, hdroplen2]; omega)
  have hra := run_append (short.take T) (short.drop T) e
  rw [List.take_append_drop] at hra
  rw [hra]
  show ((run e (short.take T)).2 ++ (run (run e (short.take T)).1 (short.drop T)).2).length
    = e.chan_count - 1
  rw [List.length_append, hlen1, hempty2]
  rfl

/-- Claim C6 (amended): the number of conversion-complete events needed for
one full scan is the sum over the configured channels of
`(1 select event + 1 settle event + target_count events)` — the SELECT state
consumes one event per channel in addition to the settle event the claim
counts.  Running exactly `scanEvents cfg` events from session start
finalizes each channel exactly once in round-robin order; with one event
fewer, only the first `N - 1` channels have been finalized. -/
theorem C6_scan_event_count (e : Engine) (cfg : List ChannelConfig)
    (raws short : List Nat)
    (hN : 1 ≤ cfg.length) (hN255 : cfg.length ≤ 255)
    (hlen : raws.length = scanEvents cfg)
    (hshort : short.length + 1 = scanEvents cfg) :
    ((run (begin e cfg).1 raws).2.map Prod.fst = List.range cfg.length) ∧
    (run (begin e cfg).1 short).2.length = cfg.length - 1 := by
  have hcl : (begin e cfg).1.config.length = (begin e cfg).1.chan_count := by
    show (cfg.map _).length = cfg.length
    exact List.length_map ..
  have hcount : (begin e cfg).1.chan_count = cfg.length := rfl
  have hclen2 : ((begin e cfg).1.config).length = cfg.length := hcl.trans hcount
  have hbound : ∀ c ∈ (begin e cfg).1.config, c.sample_count_log2 ≤ 15 := by
    intro c hcmem
    have hc' : c ∈ cfg.map
        (fun c => { c with sample_count_log2 := c.sample_count_log2 % 16 }) := hcmem
    obtain ⟨a, -, rfl⟩ := List.mem_map.mp hc'
    show a.sample_count_log2 % 16 ≤ 15
    have := Nat.mod_lt a.sample_count_log2 (show 0 < 16 by norm_num)
    omega
  have hsumfull : (((begin e cfg).1.config).map
      (fun c => 2 + 2 ^ c.sample_count_log2)).sum = scanEvents cfg := by
    show ((cfg.map (fun c => { c with sample_count_log2 := c.sample_count_log2 % 16 })).map
      (fun c => 2 + 2 ^ c.sample_count_log2)).sum = scanEvents cfg
    rw [List.map_map]
    rfl
  constructor
  · obtain ⟨p1, -, -, -, -⟩ := scan_cycle cfg.length 0 (begin e cfg).1 raws rfl rfl hcl
      (show (begin e cfg).1.chan_count ≤ 255 from hN255)
      (show 0 + cfg.length ≤ (begin e cfg).1.chan_count by
        show 0 + cfg.length ≤ cfg.length
        omega)
      hbound
      (by rw [List.drop_zero, ← hclen2, List.take_length, hsumfull]; exact hlen)
    rw [List.range_eq_range']
    exact p1
  · have h := scan_one_short (begin e cfg).1 short rfl rfl hcl
      (show (begin e cfg).1.chan_count ≤ 255 from hN255)
      (show 1 ≤ (begin e cfg).1.chan_count from hN)
      hbound
      (by rw [hsumfull]; exact hshort)
    rw [h, hcount]

/-- Witness for C6 (amended): two channels of depths 0 and 1 need
`3 + 4 = 7` events for one full scan; 6 events finalize only channel 0. -/
theorem C6_witness :
    ((run (begin engine0 [⟨0, 0⟩, ⟨0, 1⟩]).1 [1, 1, 7, 2, 2, 4, 6]).2.map Prod.fst =
      List.range 2) ∧
    (run (begin engine0 [⟨0, 0⟩, ⟨0, 1⟩]).1 [1, 1, 7, 2, 2, 4]).2.length = 2 - 1 :=
  C6_scan_event_count engine0 [⟨0, 0⟩, ⟨0, 1⟩] [1, 1, 7, 2, 2, 4, 6] [1, 1, 7, 2, 2, 4]
    (by decide) (by decide) (by decide) (by decide)

end ScanADC
